import Mathlib

/-!
Verification of the local retrieval engine of the document-chatbot repository.

The development shallowly embeds the code of `src/utils/local-rag.ts`,
the ingestion script (`src/unnamed/part_004`) and the query-time embedding
client of `src/pages/api/chat.ts`.  JavaScript numbers are modelled as
rationals (exact arithmetic); square roots, and hence cosine-similarity
scores, live in `ℝ`.  File-system state is modelled at the granularity of
the single index artifact: absent, present-but-not-JSON, or a parsed JSON
value.
-/

namespace DocChat

/-! ## Data model (`LocalIndexItem`, `LocalIndex` from src/utils/local-rag.ts) -/

/-- Metadata of one retrievable fragment (`LocalIndexItem.metadata`). -/
structure ItemMetadata where
  text : String
  source : String
  chunk : Nat
deriving DecidableEq

/-- One record of the persisted index (`LocalIndexItem`). -/
structure LocalIndexItem where
  id : String
  embedding : List ℚ
  metadata : ItemMetadata
deriving DecidableEq

/-- The persisted corpus representation (`LocalIndex`).  `dimension` is a
JavaScript number, modelled as `ℚ`. -/
structure LocalIndex where
  embeddingModel : String
  dimension : ℚ
  createdAt : String
  items : List LocalIndexItem
deriving DecidableEq

/-! ## Similarity (src/utils/local-rag.ts, lines 23-47) -/

/-- `dotProduct` (local-rag.ts:23-30): the loop runs to
`min a.length b.length`, which is exactly what `zipWith` truncates to. -/
def dotProduct (a b : List ℚ) : ℚ :=
  (List.zipWith (fun x y => x * y) a b).sum

/-- Sum of squares of the entries; `magnitude` is its square root
(local-rag.ts:32-38). -/
def sumSq (v : List ℚ) : ℚ :=
  (v.map fun x => x * x).sum

/-- `magnitude` (local-rag.ts:32-38). -/
noncomputable def magnitude (v : List ℚ) : ℝ :=
  Real.sqrt (sumSq v)

/-- `cosineSimilarity` (local-rag.ts:40-47).  The JavaScript guard
`!magA || !magB` is the test for a zero magnitude. -/
noncomputable def cosineSimilarity (a b : List ℚ) : ℝ :=
  if magnitude a = 0 ∨ magnitude b = 0 then 0
  else (dotProduct a b : ℝ) / (magnitude a * magnitude b)

/-! ## Ranking (src/utils/local-rag.ts, lines 49-61)

`Array.prototype.sort` with comparator `(a, b) => b.score - a.score` is a
stable sort that puts higher scores first: `a` is placed before `b`
exactly when `b.score ≤ a.score`, ties keeping the original order.  It is
modelled by `List.mergeSort`, which is stable and sorts by the given
boolean relation. -/

/-- The order on scored records induced by the comparator
`(a, b) => b.score - a.score`. -/
noncomputable def scoredLE (x y : LocalIndexItem × ℝ) : Bool :=
  decide (y.2 ≤ x.2)

/-- `searchLocalIndex` (local-rag.ts:49-61), with `topK` explicit. -/
noncomputable def searchLocalIndex (index : LocalIndex) (queryEmbedding : List ℚ)
    (topK : Nat) : List LocalIndexItem :=
  (((index.items.map fun item =>
      (item, cosineSimilarity queryEmbedding item.embedding)).mergeSort
        scoredLE).take topK).map fun entry => entry.1

/-- `searchLocalIndex` at its default `topK = 4` (local-rag.ts:52). -/
noncomputable def searchLocalIndexDefault (index : LocalIndex)
    (queryEmbedding : List ℚ) : List LocalIndexItem :=
  searchLocalIndex index queryEmbedding 4

/-- The similarity described by the spec sentence behind claim C4: both the
dot product and the two magnitudes computed over the vectors truncated to
their shared prefix length.  (Spec-side definition, to be compared with the
code's `cosineSimilarity`.) -/
noncomputable def cosineSimilarityBothTruncated (a b : List ℚ) : ℝ :=
  cosineSimilarity (a.take (min a.length b.length)) (b.take (min a.length b.length))

/-! ## The persisted artifact (src/utils/local-rag.ts, lines 63-72)

`writeLocalIndex` serializes with `JSON.stringify` and `readLocalIndex`
re-reads with `JSON.parse` followed by an unchecked `as LocalIndex` cast.
The artifact is modelled at the level of parsed JSON values (`JSON.parse ∘
JSON.stringify` is the identity on JSON-representable values, and
round-trips JavaScript numbers exactly). -/

/-- JSON values. -/
inductive Json where
  | null : Json
  | bool (b : Bool) : Json
  | num (q : ℚ) : Json
  | str (s : String) : Json
  | arr (elems : List Json) : Json
  | obj (fields : List (String × Json)) : Json

/-- The JSON value `JSON.stringify` produces for one `LocalIndexItem`. -/
def itemToJson (it : LocalIndexItem) : Json :=
  .obj [("id", .str it.id),
        ("embedding", .arr (it.embedding.map fun q => .num q)),
        ("metadata", .obj [("text", .str it.metadata.text),
                           ("source", .str it.metadata.source),
                           ("chunk", .num it.metadata.chunk)])]

/-- The JSON value `JSON.stringify` produces for a `LocalIndex`
(local-rag.ts:71). -/
def indexToJson (idx : LocalIndex) : Json :=
  .obj [("embeddingModel", .str idx.embeddingModel),
        ("dimension", .num idx.dimension),
        ("createdAt", .str idx.createdAt),
        ("items", .arr (idx.items.map itemToJson))]

/-- Reading a list of JSON numbers. -/
def jsonToNums : List Json → Option (List ℚ)
  | [] => some []
  | .num q :: rest => (jsonToNums rest).map fun l => q :: l
  | _ => none

/-- Reading a vector out of the parsed artifact. -/
def jsonToVec : Json → Option (List ℚ)
  | .arr es => jsonToNums es
  | _ => none

/-- Reading a natural number (a JSON number with denominator 1). -/
def jsonToNat : Json → Option Nat
  | .num q => if q.den = 1 ∧ 0 ≤ q.num then some q.num.toNat else none
  | _ => none

/-- Reading `LocalIndexItem.metadata` back from the parsed artifact. -/
def jsonToMetadata : Json → Option ItemMetadata
  | .obj fs =>
    match fs.lookup ("text"), fs.lookup ("source"), fs.lookup ("chunk") with
    | some (.str t), some (.str s), some cj =>
        (jsonToNat cj).map fun n => ⟨t, s, n⟩
    | _, _, _ => none
  | _ => none

/-- Reading one `LocalIndexItem` back from the parsed artifact. -/
def jsonToItem : Json → Option LocalIndexItem
  | .obj fs =>
    match fs.lookup ("id"), fs.lookup ("embedding"), fs.lookup ("metadata") with
    | some (.str i), some ej, some mj =>
        match jsonToVec ej, jsonToMetadata mj with
        | some emb, some md => some ⟨i, emb, md⟩
        | _, _ => none
    | _, _, _ => none
  | _ => none

/-- Reading a list of records. -/
def jsonToItems : List Json → Option (List LocalIndexItem)
  | [] => some []
  | j :: rest =>
    match jsonToItem j, jsonToItems rest with
    | some it, some its => some (it :: its)
    | _, _ => none

/-- Reading a whole `LocalIndex` back from the parsed artifact: the shape
the `as LocalIndex` cast promises. -/
def jsonToIndex : Json → Option LocalIndex
  | .obj fs =>
    match fs.lookup ("embeddingModel"), fs.lookup ("dimension"),
          fs.lookup ("createdAt"), fs.lookup ("items") with
    | some (.str m), some (.num d), some (.str c), some (.arr itemsJ) =>
        (jsonToItems itemsJ).map fun its => ⟨m, d, c, its⟩
    | _, _, _, _ => none
  | _ => none

/-- State of the file at `LOCAL_INDEX_PATH`: `none` when no file exists,
`some none` when a file exists whose text is not valid JSON (for example a
truncated, partially written artifact), `some (some j)` when the file's
text parses to the JSON value `j`. -/
abbrev FileState := Option (Option Json)

/-- The two ways `readLocalIndex` can throw: `fs.readFile` raises `ENOENT`
when the artifact is missing, and `JSON.parse` raises a `SyntaxError` when
the text is not valid JSON. -/
inductive ReadError where
  | enoent : ReadError
  | syntaxError : ReadError
deriving DecidableEq

/-- `readLocalIndex` (local-rag.ts:63-66): read the file, parse it, and
return the parsed value after an unchecked cast — no shape validation. -/
def readLocalIndex : FileState → Except ReadError Json
  | none => .error .enoent
  | some none => .error .syntaxError
  | some (some j) => .ok j

/-- `writeLocalIndex` (local-rag.ts:68-72): ensure the parent directory
exists, then write `JSON.stringify(index, null, 2)` to the final path.
The resulting file state is the serialized index. -/
def writeLocalIndex (index : LocalIndex) : FileState :=
  some (some (indexToJson index))

/-- The file states a concurrent reader of `LOCAL_INDEX_PATH` can observe
while `writeLocalIndex` runs.  `fs.writeFile` writes in place: it
truncates the target and then appends the new text, so the reader can see
the previous state, a truncated/partially-written file (not valid JSON),
or the completed new artifact.  No temporary file or rename is involved. -/
def writeLocalIndexStates (previous : FileState) (index : LocalIndex) :
    List FileState :=
  [previous, some none, some (some (indexToJson index))]

/-! ## Chunker (`splitText`, src/unnamed/part_004, lines 12-32) -/

/-- Whitespace as matched by the regular expression `\s` (the characters
relevant to this corpus). -/
def isJsWhitespace (c : Char) : Bool :=
  c == ' ' || c == '\t' || c == '\n' || c == '\r' || c == '\x0b' || c == '\x0c'

/-- Scanner for `text.replace(/\s+/g, ' ')`: every maximal run of
whitespace becomes a single space.  The flag records whether the previous
character belonged to a whitespace run. -/
def collapseAux : Bool → List Char → List Char
  | _, [] => []
  | prevWs, c :: cs =>
    if isJsWhitespace c then
      if prevWs then collapseAux true cs else ' ' :: collapseAux true cs
    else c :: collapseAux false cs

/-- `text.replace(/\s+/g, ' ')`. -/
def collapseWs (text : List Char) : List Char :=
  collapseAux false text

/-- `String.prototype.trim`: strip leading and trailing whitespace. -/
def trimChars (l : List Char) : List Char :=
  ((l.dropWhile isJsWhitespace).reverse.dropWhile isJsWhitespace).reverse

/-- The normalization applied first by `splitText` (part_004:13):
`text.replace(/\s+/g, ' ').trim()`. -/
def normalizeWs (text : List Char) : List Char :=
  trimChars (collapseWs text)

/-- `Math.min(Math.max(chunkOverlap, 0), chunkSize - 1)` (part_004:18).
`chunkOverlap` is a JavaScript number that may be negative, so it is
modelled as an integer. -/
def clampedOverlap (chunkSize : Nat) (chunkOverlap : Int) : Int :=
  min (max chunkOverlap 0) ((chunkSize : Int) - 1)

/-- The `while` loop of `splitText` (part_004:22-29).  Each pass slices
`normalized.slice(start, end)` with `end = min(start + chunkSize, length)`,
stops when `end` reaches the end, and otherwise continues from
`end - overlap`.  The loop is only ever entered with the clamped overlap,
which is strictly below `chunkSize`; that bound is the termination
argument and is carried as the hypothesis `hov`. -/
def chunkLoop (s : List Char) (chunkSize : Nat) (overlap : Int) (start : Nat)
    (hov : overlap < (chunkSize : Int)) : List (List Char) :=
  if h : start < s.length then
    if hstop : min (start + chunkSize) s.length = s.length then
      [(s.drop start).take (min (start + chunkSize) s.length - start)]
    else
      (s.drop start).take (min (start + chunkSize) s.length - start) ::
        chunkLoop s chunkSize overlap
          ((min (start + chunkSize) s.length : Int) - overlap).toNat hov
  else []
termination_by s.length - start
decreasing_by
  omega

/-- `splitText` (part_004:12-32). -/
def splitText (text : List Char) (chunkSize : Nat) (chunkOverlap : Int) :
    List (List Char) :=
  if (normalizeWs text).isEmpty then []
  else
    chunkLoop (normalizeWs text) chunkSize (clampedOverlap chunkSize chunkOverlap) 0
      ((min_le_right _ _).trans_lt (by omega))

/-- Concatenation of a chunk sequence with the overlapping prefix of every
chunk after the first removed; used to state that the chunks cover the
normalized text exactly. -/
def overlapJoin (ov : Nat) : List (List Char) → List Char
  | [] => []
  | c :: cs => c ++ (cs.map fun d => d.drop ov).flatten

/-! ## Ingestion (`run`, src/unnamed/part_004, lines 109-158) -/

/-- `CHUNK_SIZE` (part_004:7). -/
def CHUNK_SIZE : Nat := 1000

/-- `CHUNK_OVERLAP` (part_004:8). -/
def CHUNK_OVERLAP : Int := 200

/-- Default `OLLAMA_EMBED_MODEL` (part_004:10). -/
def OLLAMA_EMBED_MODEL : String := "nomic-embed-text"

/-- `vectorId` (part_004:34-38) hashes the string `source:chunkIndex` with
SHA-1.  The hash itself is irrelevant to the claims; its pre-image string
stands in for the digest. -/
def vectorId (source : String) (chunkIndex : Nat) : String :=
  source ++ ":" ++ toString chunkIndex

/-- The record-building loop of `run` (part_004:122-142): one record per
chunk of each source document, in order.  `embed` models the embedding
service (`embedText`), assumed to answer every request. -/
def buildItems (embed : String → List ℚ) (docs : List (String × List Char)) :
    List LocalIndexItem :=
  docs.flatMap fun doc =>
    (splitText doc.2 CHUNK_SIZE CHUNK_OVERLAP).enum.map fun entry =>
      { id := vectorId doc.1 entry.1
        embedding := embed (String.mk entry.2)
        metadata := { text := String.mk entry.2, source := doc.1, chunk := entry.1 } }

/-- The two failures `run` can raise before writing anything: no PDF files
found (part_004:113-117) and no text chunks extracted (part_004:144-146).
Both signal an empty corpus. -/
inductive RunError where
  | noPdfFiles : RunError
  | noChunks : RunError
deriving DecidableEq

/-- `run` (part_004:109-158) over its pure inputs: the discovered documents
with their extracted text, the embedding service, and the timestamp.  A
`.ok` result is the index passed to `writeLocalIndex`; an `.error` result
means the run threw before writing. -/
def run (embed : String → List ℚ) (now : String)
    (docs : List (String × List Char)) : Except RunError LocalIndex :=
  if docs.length = 0 then .error .noPdfFiles
  else
    match buildItems embed docs with
    | [] => .error .noChunks
    | first :: rest =>
        .ok { embeddingModel := OLLAMA_EMBED_MODEL
              dimension := (first.embedding.length : ℚ)
              createdAt := now
              items := first :: rest }

/-- The artifact file state after a `run` that started from `previous`:
only a successful run reaches `writeLocalIndex`. -/
def runFileState (embed : String → List ℚ) (now : String)
    (docs : List (String × List Char)) (previous : FileState) : FileState :=
  match run embed now docs with
  | .error _ => previous
  | .ok idx => writeLocalIndex idx

/-! ## Query-time embedding client (`embedQuery`, src/pages/api/chat.ts,
lines 27-76) -/

/-- Default `OLLAMA_BASE_URL` (chat.ts:24). -/
def OLLAMA_BASE_URL : String := "http://127.0.0.1:11434"

/-- The body `embedQuery` parses out of a success response (chat.ts:61-64). -/
structure EmbedData where
  embeddings : Option (List (List ℚ))
  embedding : Option (List ℚ)

/-- Outcome of the `fetch` to the embedding endpoint: connection failure,
a non-success HTTP status with a body, or a success response with parsed
JSON data. -/
inductive NetOutcome where
  | connFail : NetOutcome
  | httpError (status : Nat) (body : String) : NetOutcome
  | success (data : EmbedData) : NetOutcome

/-- `ApiError` (chat.ts:14-22): a message together with an HTTP status. -/
structure ApiError where
  status : Nat
  message : String
deriving DecidableEq

/-- The process-wide `embeddingCache` (chat.ts:27), keyed on the exact
input string; insertion shadows like `Map.prototype.set`. -/
abbrev EmbedCache := List (String × List ℚ)

/-- `embedQuery` (chat.ts:29-76).  A cache hit returns the stored vector
without touching the network.  On a miss the function fetches; a
connection failure maps to a 503 `ApiError`, a non-success status to an
`ApiError` with that status and the truncated body, and a success
response yields `embeddings[0]` when `embeddings` is a non-empty array,
otherwise `embedding`; if neither is present the function throws a 500
`ApiError`.  Only after a vector is extracted is it stored in the cache.
The result is the updated cache and the outcome. -/
def embedQuery (cache : EmbedCache) (input : String) (net : NetOutcome) :
    EmbedCache × Except ApiError (List ℚ) :=
  match cache.lookup input with
  | some cached => (cache, .ok cached)
  | none =>
    match net with
    | .connFail =>
        (cache, .error ⟨503, "Could not connect to Ollama at " ++ OLLAMA_BASE_URL
          ++ ". Start Ollama and ensure the URL is correct"⟩)
    | .httpError status body =>
        (cache, .error ⟨status, "Failed to create embedding (" ++ toString status
          ++ "): " ++ body.take 300⟩)
    | .success data =>
        match (match data.embeddings with
               | some (v :: _) => some v
               | _ => data.embedding) with
        | none =>
            (cache, .error ⟨500,
              "Ollama embedding response did not include an embedding vector"⟩)
        | some v => ((input, v) :: cache, .ok v)

/-! ## Helper lemmas -/

lemma buildItems_length (embed : String → List ℚ) (docs : List (String × List Char)) :
    (buildItems embed docs).length =
      (docs.map fun d => (splitText d.2 CHUNK_SIZE CHUNK_OVERLAP).length).sum := by
  induction docs with
  | nil => simp [buildItems]
  | cons d ds ih =>
    simp only [buildItems, List.flatMap_cons, List.length_append, List.length_map,
      List.enum_length, List.map_cons, List.sum_cons] at *
    omega

lemma embedQuery_hit (cache : EmbedCache) (input : String) (net : NetOutcome)
    (v : List ℚ) (h : cache.lookup input = some v) :
    embedQuery cache input net = (cache, .ok v) := by
  simp [embedQuery, h]

lemma embedQuery_miss_error (cache : EmbedCache) (input : String) (net : NetOutcome)
    (e : ApiError) (he : (embedQuery cache input net).2 = .error e) :
    (embedQuery cache input net).1 = cache ∧ cache.lookup input = none := by
  rcases hcache : cache.lookup input with _ | cached
  · refine ⟨?_, rfl⟩
    unfold embedQuery at he ⊢
    rw [hcache] at he ⊢
    rcases net with _ | ⟨status, body⟩ | ⟨embs, emb⟩
    · rfl
    · rfl
    · rcases embs with _ | ⟨_ | ⟨v0, rest⟩⟩ <;> rcases emb with _ | v <;>
        first | rfl | simp at he
  · rw [embedQuery_hit cache input net cached hcache] at he
    simp at he

lemma embedQuery_store (cache : EmbedCache) (input : String) (net : NetOutcome)
    (v : List ℚ) (hcache : cache.lookup input = none)
    (hok : (embedQuery cache input net).2 = .ok v) :
    (embedQuery cache input net).1 = (input, v) :: cache := by
  unfold embedQuery at hok ⊢
  rw [hcache] at hok ⊢
  rcases net with _ | ⟨status, body⟩ | ⟨embs, emb⟩
  · simp at hok
  · simp at hok
  · rcases embs with _ | ⟨_ | ⟨v0, rest⟩⟩ <;> rcases emb with _ | w <;> simp_all

lemma jsonToVec_num_map (l : List ℚ) :
    jsonToVec (.arr (l.map fun q => .num q)) = some l := by
  induction l with
  | nil => rfl
  | cons q qs ih =>
    simp only [jsonToVec, List.map_cons, jsonToNums] at *
    simp [ih]

lemma jsonToNat_natCast (n : Nat) : jsonToNat (.num n) = some n := by
  simp [jsonToNat, Rat.den_natCast, Rat.num_natCast]

lemma jsonToItem_itemToJson (it : LocalIndexItem) :
    jsonToItem (itemToJson it) = some it := by
  rcases it with ⟨i, emb, t, s, c⟩
  simp [jsonToItem, itemToJson, jsonToMetadata, jsonToVec_num_map, jsonToNat_natCast,
    List.lookup]

lemma jsonToItems_map (its : List LocalIndexItem) :
    jsonToItems (its.map itemToJson) = some its := by
  induction its with
  | nil => rfl
  | cons it rest ih =>
    simp only [List.map_cons, jsonToItems, jsonToItem_itemToJson, ih]

lemma dotProduct_cons (x y : ℚ) (xs ys : List ℚ) :
    dotProduct (x :: xs) (y :: ys) = x * y + dotProduct xs ys := by
  simp [dotProduct]

lemma sumSq_cons (x : ℚ) (xs : List ℚ) : sumSq (x :: xs) = x * x + sumSq xs := by
  simp [sumSq]

lemma sumSq_nonneg (v : List ℚ) : 0 ≤ sumSq v := by
  induction v with
  | nil => simp [sumSq]
  | cons x xs ih => rw [sumSq_cons]; nlinarith [mul_self_nonneg x]

lemma dotProduct_comm (a b : List ℚ) : dotProduct a b = dotProduct b a := by
  unfold dotProduct
  rw [List.zipWith_comm_of_comm _ mul_comm]

/-- Cauchy-Schwarz for the truncating dot product: the square of the dot
product is bounded by the product of the full sums of squares. -/
lemma dotProduct_sq_le (a b : List ℚ) : dotProduct a b ^ 2 ≤ sumSq a * sumSq b := by
  induction a generalizing b with
  | nil =>
    have hb := sumSq_nonneg b
    simp [dotProduct, sumSq]
  | cons x xs ih =>
    cases b with
    | nil =>
      have ha := sumSq_nonneg (x :: xs)
      simp [dotProduct, sumSq]
    | cons y ys =>
      have hA := sumSq_nonneg xs
      have hB := sumSq_nonneg ys
      have hd := ih ys
      rw [dotProduct_cons, sumSq_cons, sumSq_cons]
      rcases eq_or_lt_of_le hA with hA0 | hApos
      · have hd0 : dotProduct xs ys = 0 := by
          nlinarith [hd, sq_nonneg (dotProduct xs ys)]
        rw [hd0, ← hA0]
        nlinarith [mul_nonneg (mul_self_nonneg x) hB]
      · have h1 : (2 * (x * y) * dotProduct xs ys) * sumSq xs ≤
            (x * x * sumSq ys + sumSq xs * (y * y)) * sumSq xs := by
          nlinarith [sq_nonneg (x * dotProduct xs ys - y * sumSq xs), hd, sq_nonneg x]
        have h2 : 2 * (x * y) * dotProduct xs ys ≤
            x * x * sumSq ys + sumSq xs * (y * y) :=
          le_of_mul_le_mul_right h1 hApos
        nlinarith [h2, hd]

lemma magnitude_nonneg (v : List ℚ) : 0 ≤ magnitude v :=
  Real.sqrt_nonneg _

lemma magnitude_eq_zero_iff (v : List ℚ) : magnitude v = 0 ↔ sumSq v = 0 := by
  unfold magnitude
  rw [Real.sqrt_eq_zero']
  constructor
  · intro h
    have h2 : (0 : ℝ) ≤ (sumSq v : ℝ) := by exact_mod_cast sumSq_nonneg v
    have h3 : (sumSq v : ℝ) = 0 := le_antisymm h h2
    exact_mod_cast h3
  · intro h
    rw [h]
    simp

lemma abs_dotProduct_le (a b : List ℚ) :
    |(dotProduct a b : ℝ)| ≤ magnitude a * magnitude b := by
  have hcs : ((dotProduct a b : ℝ)) ^ 2 ≤ (sumSq a : ℝ) * (sumSq b : ℝ) := by
    exact_mod_cast dotProduct_sq_le a b
  have h1 : |(dotProduct a b : ℝ)| = Real.sqrt ((dotProduct a b : ℝ) ^ 2) :=
    (Real.sqrt_sq_eq_abs _).symm
  rw [h1, magnitude, magnitude, ← Real.sqrt_mul (by exact_mod_cast sumSq_nonneg a)]
  exact Real.sqrt_le_sqrt hcs

lemma cosineSimilarity_comm (a b : List ℚ) :
    cosineSimilarity a b = cosineSimilarity b a := by
  unfold cosineSimilarity
  by_cases h : magnitude a = 0 ∨ magnitude b = 0
  · rw [if_pos h, if_pos h.symm]
  · rw [if_neg h, if_neg (fun hc => h hc.symm), dotProduct_comm, mul_comm]

lemma cosineSimilarity_bounds (a b : List ℚ) :
    -1 ≤ cosineSimilarity a b ∧ cosineSimilarity a b ≤ 1 := by
  unfold cosineSimilarity
  split
  · norm_num
  · rename_i h
    push_neg at h
    obtain ⟨ha, hb⟩ := h
    have hapos : 0 < magnitude a := lt_of_le_of_ne (magnitude_nonneg a) (Ne.symm ha)
    have hbpos : 0 < magnitude b := lt_of_le_of_ne (magnitude_nonneg b) (Ne.symm hb)
    have habs : |(dotProduct a b : ℝ) / (magnitude a * magnitude b)| ≤ 1 := by
      rw [abs_div, abs_of_pos (mul_pos hapos hbpos), div_le_one (mul_pos hapos hbpos)]
      exact abs_dotProduct_le a b
    exact abs_le.mp habs

lemma dotProduct_take_min (a b : List ℚ) :
    dotProduct (a.take (min a.length b.length)) (b.take (min a.length b.length)) =
      dotProduct a b := by
  unfold dotProduct
  congr 1
  rw [← List.take_zipWith]
  apply List.take_of_length_le
  simp

lemma scoredLE_trans (a b c : LocalIndexItem × ℝ) :
    scoredLE a b → scoredLE b c → scoredLE a c := by
  simp only [scoredLE, decide_eq_true_eq]
  exact fun h1 h2 => le_trans h2 h1

lemma scoredLE_total (a b : LocalIndexItem × ℝ) : scoredLE a b || scoredLE b a := by
  simp only [scoredLE, Bool.or_eq_true, decide_eq_true_eq]
  exact le_total b.2 a.2

/-! ## Claim C1: ranking returns a stable top-K by descending similarity -/

/-- C1: `searchLocalIndex` returns at most `min topK |items|` records; the
returned records are in non-increasing order of cosine similarity to the
query; the result equals sorting the position-tagged scored records by
`enumLE scoredLE` — score descending with ties broken by the original
position, i.e. the sort is stable — and then taking the first `topK`; and
the one-argument form defaults `topK` to 4. -/
theorem searchLocalIndex_spec (index : LocalIndex) (q : List ℚ) (topK : Nat) :
    (searchLocalIndex index q topK).length ≤ min topK index.items.length
    ∧ (searchLocalIndex index q topK).Pairwise
        (fun x y => cosineSimilarity q y.embedding ≤ cosineSimilarity q x.embedding)
    ∧ searchLocalIndex index q topK =
        ((((index.items.map fun it =>
              (it, cosineSimilarity q it.embedding)).enum).mergeSort
            (List.enumLE scoredLE)).take topK).map (fun p => p.2.1)
    ∧ searchLocalIndexDefault index q = searchLocalIndex index q 4 := by
  refine ⟨?_, ?_, ?_, rfl⟩
  · simp [searchLocalIndex]
  · have hsorted := List.sorted_mergeSort scoredLE_trans scoredLE_total
      (index.items.map fun it => (it, cosineSimilarity q it.embedding))
    have hmem : ∀ p ∈ (index.items.map fun it =>
        (it, cosineSimilarity q it.embedding)).mergeSort scoredLE,
        p.2 = cosineSimilarity q p.1.embedding := by
      intro p hp
      rw [List.mem_mergeSort] at hp
      obtain ⟨it, _, rfl⟩ := List.mem_map.mp hp
      rfl
    have hpair : ((index.items.map fun it =>
        (it, cosineSimilarity q it.embedding)).mergeSort scoredLE).Pairwise
        (fun p r => cosineSimilarity q r.1.embedding ≤ cosineSimilarity q p.1.embedding) := by
      refine List.Pairwise.imp_of_mem (fun {p r} hp hr hle => ?_) hsorted
      have h2 : r.2 ≤ p.2 := by simpa [scoredLE] using hle
      rw [hmem p hp, hmem r hr] at h2
      exact h2
    have htake := List.Pairwise.sublist (List.take_sublist topK _) hpair
    unfold searchLocalIndex
    rw [List.pairwise_map]
    exact htake
  · unfold searchLocalIndex
    rw [← List.mergeSort_enum, ← List.map_take, List.map_map]
    rfl

/-! ## Claim C3: similarity symmetry, bounds, and the zero-magnitude case -/

/-- C3: for vectors of equal nonzero length the similarity is symmetric
and lies in the interval from -1 to 1; a vector of zero magnitude (in
particular the zero vector) has similarity 0 against anything, on either
side. -/
theorem cosineSimilarity_sym_bounds :
    (∀ a b : List ℚ, a.length = b.length → a.length ≠ 0 →
        cosineSimilarity a b = cosineSimilarity b a
        ∧ -1 ≤ cosineSimilarity a b ∧ cosineSimilarity a b ≤ 1)
    ∧ ∀ a b : List ℚ, magnitude a = 0 →
        cosineSimilarity a b = 0 ∧ cosineSimilarity b a = 0 := by
  refine ⟨fun a b _ _ => ⟨cosineSimilarity_comm a b, cosineSimilarity_bounds a b⟩,
    fun a b h => ⟨?_, ?_⟩⟩
  · unfold cosineSimilarity
    rw [if_pos (Or.inl h)]
  · unfold cosineSimilarity
    rw [if_pos (Or.inr h)]

/-- Witness for C3 at concrete vectors, including the zero vector. -/
theorem cosineSimilarity_sym_bounds_witness :
    (([(1:ℚ), 0] : List ℚ).length = ([(0:ℚ), 1] : List ℚ).length
      ∧ ([(1:ℚ), 0] : List ℚ).length ≠ 0)
    ∧ (cosineSimilarity [(1:ℚ), 0] [(0:ℚ), 1] = cosineSimilarity [(0:ℚ), 1] [(1:ℚ), 0]
      ∧ -1 ≤ cosineSimilarity [(1:ℚ), 0] [(0:ℚ), 1]
      ∧ cosineSimilarity [(1:ℚ), 0] [(0:ℚ), 1] ≤ 1)
    ∧ magnitude ([] : List ℚ) = 0
    ∧ (cosineSimilarity ([] : List ℚ) [(1:ℚ)] = 0
      ∧ cosineSimilarity [(1:ℚ)] ([] : List ℚ) = 0) := by
  have hm : magnitude ([] : List ℚ) = 0 := by
    rw [magnitude_eq_zero_iff]
    rfl
  exact ⟨⟨rfl, by decide⟩, cosineSimilarity_sym_bounds.1 _ _ rfl (by decide), hm,
    cosineSimilarity_sym_bounds.2 [] [(1:ℚ)] hm⟩

/-! ## Claim C4: what truncation actually applies to -/

/-- C4 counterexample: for `a = [1]` and `b = [1, 1]` (both of nonzero
magnitude, different lengths), the code's similarity is `1 / √2` — the dot
product is truncated, but the magnitudes are taken over the full vectors —
while the claim's fully truncated similarity is `1`. -/
theorem cosineSimilarity_trunc_counterexample :
    magnitude [(1:ℚ)] ≠ 0 ∧ magnitude [(1:ℚ), 1] ≠ 0
    ∧ ([(1:ℚ)] : List ℚ).length ≠ ([(1:ℚ), 1] : List ℚ).length
    ∧ cosineSimilarity [(1:ℚ)] [(1:ℚ), 1] ≠
        cosineSimilarityBothTruncated [(1:ℚ)] [(1:ℚ), 1] := by
  have hs1 : sumSq [(1:ℚ)] = 1 := by norm_num [sumSq]
  have hs2 : sumSq [(1:ℚ), 1] = 2 := by norm_num [sumSq]
  have hm1 : magnitude [(1:ℚ)] = 1 := by
    rw [magnitude, hs1]
    norm_num [Real.sqrt_one]
  have hm2 : magnitude [(1:ℚ), 1] = Real.sqrt 2 := by
    rw [magnitude, hs2]
    norm_num
  have hlt : (1 : ℝ) < Real.sqrt 2 := by
    have h := Real.sqrt_lt_sqrt (by norm_num : (0:ℝ) ≤ 1) (by norm_num : (1:ℝ) < 2)
    rwa [Real.sqrt_one] at h
  have hd : dotProduct [(1:ℚ)] [(1:ℚ), 1] = 1 := by norm_num [dotProduct]
  have hcos : cosineSimilarity [(1:ℚ)] [(1:ℚ), 1] = 1 / Real.sqrt 2 := by
    unfold cosineSimilarity
    rw [if_neg (by rw [hm1, hm2]; push_neg; constructor <;> positivity), hd, hm1, hm2]
    norm_num
  have htake : cosineSimilarityBothTruncated [(1:ℚ)] [(1:ℚ), 1] =
      cosineSimilarity [(1:ℚ)] [(1:ℚ)] := by
    unfold cosineSimilarityBothTruncated
    simp
  have hd11 : dotProduct [(1:ℚ)] [(1:ℚ)] = 1 := by norm_num [dotProduct]
  have hcos11 : cosineSimilarity [(1:ℚ)] [(1:ℚ)] = 1 := by
    unfold cosineSimilarity
    rw [if_neg (by rw [hm1]; push_neg; exact ⟨one_ne_zero, one_ne_zero⟩), hd11, hm1]
    norm_num
  refine ⟨by rw [hm1]; norm_num, by rw [hm2]; positivity, by decide, ?_⟩
  rw [hcos, htake, hcos11]
  have hlt1 : 1 / Real.sqrt 2 < 1 := by
    rw [div_lt_one (by positivity)]
    exact hlt
  exact ne_of_lt hlt1

/-- C4 amended: for vectors of different lengths (both of nonzero
magnitude), the code's similarity is the dot product over the shared
prefix divided by the product of the two FULL-length magnitudes — the
defensive truncation applies to the dot product only. -/
theorem cosineSimilarity_shared_prefix_dot (a b : List ℚ)
    (ha : magnitude a ≠ 0) (hb : magnitude b ≠ 0) :
    cosineSimilarity a b =
      (dotProduct (a.take (min a.length b.length)) (b.take (min a.length b.length)) : ℝ)
        / (magnitude a * magnitude b) := by
  unfold cosineSimilarity
  rw [if_neg (by push_neg; exact ⟨ha, hb⟩), dotProduct_take_min]

/-- Witness for C4 amended at the vectors of the counterexample. -/
theorem cosineSimilarity_shared_prefix_dot_witness :
    (magnitude [(1:ℚ)] ≠ 0 ∧ magnitude [(1:ℚ), 1] ≠ 0)
    ∧ cosineSimilarity [(1:ℚ)] [(1:ℚ), 1] =
        (dotProduct ([(1:ℚ)].take (min ([(1:ℚ)] : List ℚ).length ([(1:ℚ), 1] : List ℚ).length))
            ([(1:ℚ), 1].take (min ([(1:ℚ)] : List ℚ).length ([(1:ℚ), 1] : List ℚ).length)) : ℝ)
          / (magnitude [(1:ℚ)] * magnitude [(1:ℚ), 1]) := by
  have h1 : magnitude [(1:ℚ)] ≠ 0 :=
    fun h => absurd ((magnitude_eq_zero_iff _).mp h) (by norm_num [sumSq])
  have h2 : magnitude [(1:ℚ), 1] ≠ 0 :=
    fun h => absurd ((magnitude_eq_zero_iff _).mp h) (by norm_num [sumSq])
  exact ⟨⟨h1, h2⟩, cosineSimilarity_shared_prefix_dot [(1:ℚ)] [(1:ℚ), 1] h1 h2⟩

/-- C5: loading after saving returns the index exactly: `writeLocalIndex`
leaves the serialized artifact on disk, `readLocalIndex` returns the very
JSON value that was written, and decoding that value recovers every field
— model, dimension, timestamp, every record's id, metadata, vector values
and the order of `items`. -/
theorem localIndex_round_trip (idx : LocalIndex) :
    readLocalIndex (writeLocalIndex idx) = .ok (indexToJson idx)
    ∧ jsonToIndex (indexToJson idx) = some idx := by
  refine ⟨rfl, ?_⟩
  rcases idx with ⟨m, d, c, its⟩
  simp [jsonToIndex, indexToJson, jsonToItems_map, List.lookup]

lemma chunkLoop_eq_cons (s : List Char) (size : Nat) (ov : Int) (start : Nat)
    (hov : ov < (size : Int)) (h : start < s.length) :
    ∃ rest, chunkLoop s size ov start hov =
      (s.drop start).take (min (start + size) s.length - start) :: rest := by
  rw [chunkLoop, dif_pos h]
  by_cases hstop : min (start + size) s.length = s.length
  · rw [dif_pos hstop]
    exact ⟨[], rfl⟩
  · rw [dif_neg hstop]
    exact ⟨_, rfl⟩

/-- The invariant of the chunking loop: chunks are nonempty and at most
`size` long, all but the last are exactly `size` long, removing the
overlapping prefixes and concatenating reconstructs the remaining text,
and the number of chunks is bounded by the remaining length. -/
lemma chunkLoop_invariant (s : List Char) (size : Nat) (ov : Int)
    (hsize : 1 ≤ size) (hov0 : 0 ≤ ov) (hov : ov < (size : Int)) :
    ∀ n start, s.length - start ≤ n → start < s.length →
      (∀ c ∈ chunkLoop s size ov start hov, c.length ≤ size ∧ c ≠ [])
      ∧ (∀ c ∈ (chunkLoop s size ov start hov).dropLast, c.length = size)
      ∧ overlapJoin ov.toNat (chunkLoop s size ov start hov) = s.drop start
      ∧ (chunkLoop s size ov start hov).length ≤ s.length - start := by
  intro n
  induction n with
  | zero =>
    intro start h1 h2
    exact absurd h2 (by omega)
  | succ n ih =>
    intro start hle hstart
    rw [chunkLoop, dif_pos hstart]
    by_cases hstop : min (start + size) s.length = s.length
    · rw [dif_pos hstop]
      have hlen : ((s.drop start).take (min (start + size) s.length - start)).length
          = s.length - start := by
        simp only [List.length_take, List.length_drop]
        omega
      refine ⟨?_, ?_, ?_, ?_⟩
      · intro c hc
        rw [List.mem_singleton] at hc
        subst hc
        refine ⟨by rw [hlen]; omega, fun hnil => ?_⟩
        rw [hnil] at hlen
        simp at hlen
        omega
      · intro c hc
        simp at hc
      · simp only [overlapJoin, List.map_nil, List.flatten_nil, List.append_nil]
        apply List.take_of_length_le
        simp only [List.length_drop]
        omega
      · simp only [List.length_singleton]
        omega
    · rw [dif_neg hstop]
      have hstart' : ((min (start + size) s.length : Int) - ov).toNat < s.length := by
        omega
      have hmeas : s.length - ((min (start + size) s.length : Int) - ov).toNat ≤ n := by
        omega
      obtain ⟨ha, hb, hc, hd⟩ := ih _ hmeas hstart'
      obtain ⟨rest, hrest⟩ := chunkLoop_eq_cons s size ov _ hov hstart'
      have hchunklen :
          ((s.drop start).take (min (start + size) s.length - start)).length = size := by
        simp only [List.length_take, List.length_drop]
        omega
      refine ⟨?_, ?_, ?_, ?_⟩
      · intro c hc'
        rcases List.mem_cons.mp hc' with rfl | hmem
        · refine ⟨by rw [hchunklen], fun hnil => ?_⟩
          rw [hnil] at hchunklen
          simp at hchunklen
          omega
        · exact ha c hmem
      · rw [hrest]
        intro c hc'
        rw [List.dropLast_cons₂] at hc'
        rcases List.mem_cons.mp hc' with rfl | hmem
        · exact hchunklen
        · rw [hrest] at hb
          exact hb c hmem
      · rw [hrest] at hc ⊢
        simp only [overlapJoin, List.map_cons, List.flatten_cons] at hc ⊢
        have hc'len : ov.toNat ≤
            ((s.drop (((min (start + size) s.length : Int) - ov).toNat)).take
              (min ((((min (start + size) s.length : Int) - ov).toNat) + size) s.length
                - (((min (start + size) s.length : Int) - ov).toNat))).length := by
          simp only [List.length_take, List.length_drop]
          omega
        rw [← List.drop_append_of_le_length hc'len]
        rw [hc, List.drop_drop]
        have heq : (((min (start + size) s.length : Int) - ov).toNat) + ov.toNat
            = start + size := by
          omega
        rw [heq]
        have hmin2 : min (start + size) s.length - start = size := by omega
        rw [hmin2]
        have hdd : s.drop (start + size) = (s.drop start).drop size := by
          rw [List.drop_drop]
        rw [hdd]
        exact List.take_append_drop size (s.drop start)
      · simp only [List.length_cons]
        omega

/-! ## Claim C2: chunker window, sizes, and exact coverage -/

/-- C2: for any text and `chunkSize ≥ 1` (overlap clamped internally to
the interval from 0 to `chunkSize - 1`), every chunk produced by
`splitText` is nonempty and at most `chunkSize` long, every chunk except
possibly the last is exactly `chunkSize` long, and concatenating the
chunks with the overlapping prefix of each later chunk removed
reconstructs the whitespace-normalized text exactly. -/
theorem splitText_spec (text : List Char) (chunkSize : Nat) (chunkOverlap : Int)
    (hsize : 1 ≤ chunkSize) :
    (∀ c ∈ splitText text chunkSize chunkOverlap, c.length ≤ chunkSize ∧ c ≠ [])
    ∧ (∀ c ∈ (splitText text chunkSize chunkOverlap).dropLast, c.length = chunkSize)
    ∧ overlapJoin (clampedOverlap chunkSize chunkOverlap).toNat
        (splitText text chunkSize chunkOverlap) = normalizeWs text := by
  unfold splitText
  by_cases hempty : (normalizeWs text).isEmpty
  · rw [if_pos hempty]
    refine ⟨by simp, by simp, ?_⟩
    rw [List.isEmpty_iff.mp hempty]
    rfl
  · rw [if_neg hempty]
    have hlen : 0 < (normalizeWs text).length := by
      rcases List.isEmpty_iff.not.mp hempty with h
      cases hn : normalizeWs text with
      | nil => exact absurd hn h
      | cons a l => simp [hn]
    have hov0 : 0 ≤ clampedOverlap chunkSize chunkOverlap := by
      unfold clampedOverlap
      omega
    have hov : clampedOverlap chunkSize chunkOverlap < (chunkSize : Int) := by
      unfold clampedOverlap
      omega
    obtain ⟨ha, hb, hc, _⟩ := chunkLoop_invariant (normalizeWs text) chunkSize
      (clampedOverlap chunkSize chunkOverlap) hsize hov0 hov
      (normalizeWs text).length 0 (by omega) hlen
    exact ⟨ha, hb, by simpa using hc⟩

/-- Witness for C2 at the spec's own scenario: `chunkSize = 5`,
`overlap = 2`, text `"a b c d e f g h"`. -/
theorem splitText_spec_witness :
    1 ≤ 5
    ∧ ((∀ c ∈ splitText ("a b c d e f g h".toList) 5 2, c.length ≤ 5 ∧ c ≠ [])
      ∧ (∀ c ∈ (splitText ("a b c d e f g h".toList) 5 2).dropLast, c.length = 5)
      ∧ overlapJoin (clampedOverlap 5 2).toNat (splitText ("a b c d e f g h".toList) 5 2)
          = normalizeWs ("a b c d e f g h".toList)) :=
  ⟨by decide, splitText_spec ("a b c d e f g h".toList) 5 2 (by decide)⟩

/-! ## Claim C9: the scan terminates with a finite chunk sequence -/

/-- C9: for `chunkSize ≥ 1` and any `chunkOverlap`, the clamped overlap
lies between 0 and `chunkSize - 1` (so the window start strictly
increases each step — the termination measure of `chunkLoop`), and the
resulting chunk sequence is finite, with at most one chunk per character
of the normalized text. -/
theorem splitText_terminates (text : List Char) (chunkSize : Nat) (chunkOverlap : Int)
    (hsize : 1 ≤ chunkSize) :
    0 ≤ clampedOverlap chunkSize chunkOverlap
    ∧ clampedOverlap chunkSize chunkOverlap ≤ (chunkSize : Int) - 1
    ∧ (splitText text chunkSize chunkOverlap).length ≤ (normalizeWs text).length := by
  refine ⟨by unfold clampedOverlap; omega, min_le_right _ _, ?_⟩
  unfold splitText
  by_cases hempty : (normalizeWs text).isEmpty
  · rw [if_pos hempty]
    simp
  · rw [if_neg hempty]
    have hlen : 0 < (normalizeWs text).length := by
      rcases List.isEmpty_iff.not.mp hempty with h
      cases hn : normalizeWs text with
      | nil => exact absurd hn h
      | cons a l => simp [hn]
    have hov0 : 0 ≤ clampedOverlap chunkSize chunkOverlap := by
      unfold clampedOverlap
      omega
    have hov : clampedOverlap chunkSize chunkOverlap < (chunkSize : Int) := by
      unfold clampedOverlap
      omega
    obtain ⟨_, _, _, hd⟩ := chunkLoop_invariant (normalizeWs text) chunkSize
      (clampedOverlap chunkSize chunkOverlap) hsize hov0 hov
      (normalizeWs text).length 0 (by omega) hlen
    simpa using hd

/-- Witness for C9 at a concrete text with an overlap larger than the
chunk size (clamped down to 2). -/
theorem splitText_terminates_witness :
    1 ≤ 3
    ∧ (0 ≤ clampedOverlap 3 10
      ∧ clampedOverlap 3 10 ≤ (3 : Int) - 1
      ∧ (splitText ("hello world".toList) 3 10).length ≤ (normalizeWs ("hello world".toList)).length) :=
  ⟨by decide, splitText_terminates ("hello world".toList) 3 10 (by decide)⟩

/-! ## Claim C10: the query embedding cache is only written on success -/

/-- C10: if `embedQuery` fails (connection failure, non-success status, or
a success response with no vector), the cache is left unchanged and no
entry is stored for the input; on success the returned vector is exactly
the one cached, and every subsequent call for the same input returns it
from the cache without touching the network. -/
theorem embedQuery_cache_spec (cache : EmbedCache) (input : String) (net : NetOutcome) :
    (∀ e, (embedQuery cache input net).2 = .error e →
        (embedQuery cache input net).1 = cache ∧ cache.lookup input = none)
    ∧ ∀ v, (embedQuery cache input net).2 = .ok v →
        (embedQuery cache input net).1.lookup input = some v
        ∧ ∀ net', embedQuery (embedQuery cache input net).1 input net' =
            ((embedQuery cache input net).1, .ok v) := by
  refine ⟨fun e he => embedQuery_miss_error cache input net e he, fun v hok => ?_⟩
  rcases hcache : cache.lookup input with _ | cached
  · have h1 := embedQuery_store cache input net v hcache hok
    rw [h1]
    refine ⟨by simp [List.lookup], fun net' => ?_⟩
    exact embedQuery_hit _ input net' v (by simp [List.lookup])
  · have h1 := embedQuery_hit cache input net cached hcache
    have h2 : cached = v := by
      rw [h1] at hok
      simpa using hok
    subst h2
    rw [h1]
    exact ⟨hcache, fun net' => embedQuery_hit cache input net' cached hcache⟩

/-- Witness for C10 at a concrete call: an empty cache, a success response
carrying one vector. -/
theorem embedQuery_cache_witness :
    (embedQuery [] "q" (.success ⟨some [[1]], none⟩)).2 = .ok [1]
    ∧ (embedQuery [] "q" (.success ⟨some [[1]], none⟩)).1.lookup ("q") = some [1]
    ∧ ∀ net', embedQuery (embedQuery [] "q" (.success ⟨some [[1]], none⟩)).1 "q" net' =
        ((embedQuery [] "q" (.success ⟨some [[1]], none⟩)).1, .ok [1]) := by
  refine ⟨rfl, ?_⟩
  have h := (embedQuery_cache_spec [] "q" (.success ⟨some [[1]], none⟩)).2 [1] rfl
  exact ⟨h.1, h.2⟩

/-! ## Claim C7: error conditions of `readLocalIndex` -/

/-- C7 counterexample: an artifact that exists and is valid JSON but does
not have the Index shape (here the JSON number `0`) is returned
successfully by `readLocalIndex` — there is no `CorruptIndex` failure. -/
theorem readLocalIndex_accepts_wrong_shape :
    readLocalIndex (some (some (.num 0))) = .ok (.num 0)
    ∧ jsonToIndex (.num 0) = none :=
  ⟨rfl, rfl⟩

/-- C7 amended: `readLocalIndex` fails with the distinguished `ENOENT`
condition exactly when the artifact is missing; an artifact whose text is
not valid JSON raises a plain `SyntaxError`; and any artifact that parses
as JSON — whatever its shape — is returned without validation. -/
theorem readLocalIndex_error_conditions :
    (∀ st : FileState, readLocalIndex st = .error .enoent ↔ st = none)
    ∧ readLocalIndex (some none) = .error .syntaxError
    ∧ ∀ j : Json, readLocalIndex (some (some j)) = .ok j := by
  refine ⟨fun st => ?_, rfl, fun j => rfl⟩
  rcases st with _ | st
  · simp [readLocalIndex]
  · rcases st with _ | j <;> simp [readLocalIndex]

/-! ## Claim C6: `writeLocalIndex` is not atomic -/

/-- C6 counterexample: starting from a state with no artifact, a reader
concurrent with `writeLocalIndex` can observe the truncated in-place write
(`some none`), which is neither the previous state nor the new complete
artifact. -/
theorem writeLocalIndex_not_atomic :
    some none ∈ writeLocalIndexStates none ⟨"m", 0, "t", []⟩
    ∧ (some none : FileState) ≠ none
    ∧ some none ≠ writeLocalIndex ⟨"m", 0, "t", []⟩ := by
  refine ⟨?_, by simp, by simp [writeLocalIndex]⟩
  simp [writeLocalIndexStates]

/-- C6 amended: `writeLocalIndex` writes the serialized index in place at
the final path (truncate, then write; no temporary file, no rename), so
whenever the previous state is not itself the truncated state, a
concurrent reader can observe an intermediate state that is neither the
previous nor the new complete artifact. -/
theorem writeLocalIndex_in_place (previous : FileState) (index : LocalIndex)
    (hprev : previous ≠ some none) :
    writeLocalIndexStates previous index = [previous, some none, writeLocalIndex index]
    ∧ ∃ st ∈ writeLocalIndexStates previous index,
        st ≠ previous ∧ st ≠ writeLocalIndex index := by
  refine ⟨rfl, some none, by simp [writeLocalIndexStates], fun h => hprev h.symm, ?_⟩
  simp [writeLocalIndex]

/-- Witness for C6 amended at a concrete previous state and index. -/
theorem writeLocalIndex_in_place_witness :
    ((none : FileState) ≠ some none)
    ∧ (writeLocalIndexStates none ⟨"m", 0, "t", []⟩ =
        [none, some none, writeLocalIndex ⟨"m", 0, "t", []⟩]
      ∧ ∃ st ∈ writeLocalIndexStates none ⟨"m", 0, "t", []⟩,
          st ≠ none ∧ st ≠ writeLocalIndex ⟨"m", 0, "t", []⟩) :=
  ⟨by simp, writeLocalIndex_in_place none ⟨"m", 0, "t", []⟩ (by simp)⟩

/-! ## Claim C8: an empty corpus fails and writes nothing -/

/-- C8: when the source documents yield zero fragment records in total,
`run` throws (either of its two empty-corpus errors: no PDF files, or no
chunks extracted) and the index artifact is left untouched. -/
theorem run_empty_corpus (embed : String → List ℚ) (now : String)
    (docs : List (String × List Char)) (previous : FileState)
    (hzero : (docs.map fun d => (splitText d.2 CHUNK_SIZE CHUNK_OVERLAP).length).sum = 0) :
    (run embed now docs = .error .noPdfFiles ∨ run embed now docs = .error .noChunks)
    ∧ runFileState embed now docs previous = previous := by
  have hitems : buildItems embed docs = [] := by
    have := buildItems_length embed docs
    rw [hzero] at this
    exact List.length_eq_zero.mp this
  by_cases hdocs : docs.length = 0
  · have hrun : run embed now docs = .error .noPdfFiles := by
      simp [run, hdocs]
    exact ⟨Or.inl hrun, by simp [runFileState, hrun]⟩
  · have hrun : run embed now docs = .error .noChunks := by
      simp [run, hdocs, hitems]
    exact ⟨Or.inr hrun, by simp [runFileState, hrun]⟩

/-- Witness for C8: a single PDF whose extracted text is all whitespace
produces zero chunks; the run fails and the artifact state is unchanged. -/
theorem run_empty_corpus_witness :
    ((([("docs/a.pdf", [' '])] : List (String × List Char)).map fun d =>
        (splitText d.2 CHUNK_SIZE CHUNK_OVERLAP).length).sum = 0)
    ∧ ((run (fun _ => []) "t" [("docs/a.pdf", [' '])] = .error .noPdfFiles
        ∨ run (fun _ => []) "t" [("docs/a.pdf", [' '])] = .error .noChunks)
      ∧ runFileState (fun _ => []) "t" [("docs/a.pdf", [' '])] none = none) :=
  ⟨by decide, run_empty_corpus (fun _ => []) "t" [("docs/a.pdf", [' '])] none (by decide)⟩

end DocChat
